import Mathlib

/-!
Verification of the WebsiteMonitor run-orchestration core.

This file gives a shallow embedding, in Lean, of the test-run executor,
the check registry, the result store (SQLite layer) and the cleanup
sweeper of the WebsiteMonitor repository, and proves (or refutes)
the specification claims about them.

Conventions of the embedding:
- machine timestamps and file mtimes are modelled as integers;
- JavaScript number arithmetic on rates is modelled over the rationals,
  with toFixed(2) and SQLite ROUND(x, 2) both modelled as exact decimal
  rounding (round half toward positive infinity, which is what
  Math.round does and what toFixed does on exactly representable
  halves); binary floating-point noise is abstracted away;
- the SQLite database is modelled as a pure record of row lists; an
  autoincrement column is modelled by a next-id counter;
- asynchronous code is modelled by explicit state passing; the only
  interleaving points of the node event loop are the await points of
  the source, which is where the model lets a cancellation request run.
-/

namespace WM

/-- Per-check outcome status, as produced by the checks
(the strings PASS, FAIL, SKIP in the source). -/
inductive Status where
  | PASS
  | FAIL
  | SKIP
deriving DecidableEq, Repr

/-- A per-check Result, as returned by a Check run() in the source
(src/monitor-system/tests/*.js): name, category, critical flag, status
and duration. Screenshot, error and metrics fields do not influence
any claim and are projected away. -/
structure TestResult where
  name : String
  category : String
  critical : Bool
  status : Status
  duration : Int
deriving DecidableEq, Repr

/-- Math.round of JavaScript: round half toward positive infinity,
that is the floor of q + 1/2 (written with the executable Rat.floor). -/
def jsRound (q : Rat) : Int := Rat.floor (q + 1/2)

/-- Rounding a rate to two decimals: models
parseFloat(x.toFixed(2)) of the summary computation and
ROUND(x, 2) of SQLite, on nonnegative rates. -/
def round2 (q : Rat) : Rat := (jsRound (q * 100) : Rat) / 100

/-- The Summary record of a run (monitor.results.summary in the source). -/
structure Summary where
  total : Nat
  passed : Nat
  failed : Nat
  successRate : Rat
deriving DecidableEq, Repr

/-- Summary computation, translated from
src/monitor-system/dashboard/server.js lines 297-303 and the identical
code of WebsiteMonitor.runAllTests (src/unnamed/part_003 lines 87-93):
total is the length of the pushed results, passed counts PASS, failed
counts FAIL, successRate is (passed/total*100).toFixed(2) when total
is positive and 0 otherwise. -/
def computeSummary (tests : List TestResult) : Summary :=
  let total := tests.length
  let passed := (tests.filter (fun t => t.status == Status.PASS)).length
  let failed := (tests.filter (fun t => t.status == Status.FAIL)).length
  { total := total
    passed := passed
    failed := failed
    successRate :=
      if 0 < total then round2 (((passed : Rat) / (total : Rat)) * 100) else 0 }

/-- The sequential executor loop, translated from
src/monitor-system/dashboard/server.js lines 272-294 (and the identical
loop of src/unnamed/part_003 lines 69-85): each check is run in order
and its result pushed; if the result is critical, FAIL, and
config.monitoring.stopOnCriticalFailure is set, the loop breaks after
pushing that result. A check is modelled by the Result its run()
returns. The function returns the list of pushed results. -/
def runTests (stopOnCriticalFailure : Bool) : List TestResult → List TestResult
  | [] => []
  | r :: rest =>
    if r.critical && r.status == Status.FAIL && stopOnCriticalFailure then
      [r]
    else
      r :: runTests stopOnCriticalFailure rest

/-! ### Check registry (src/monitor-system/tests/index.js) -/

/-- Options passed to TestRegistry.register. A missing field is
modelled by none; the source reads options.enabled and options.order
from a plain object. -/
structure RegisterOptions where
  enabled : Option Bool
  order : Option Int
deriving DecidableEq, Repr

/-- JavaScript `x || dflt` on an optional integer: the default is used
when the value is absent (undefined) or falsy (0). -/
def jsOrDefault (v : Option Int) (dflt : Int) : Int :=
  match v with
  | none => dflt
  | some o => if o = 0 then dflt else o

/-- A stored registry entry (this.tests element): the check class is
identified by a numeric token, enabled is options.enabled !== false,
order is options.order || 999
(src/monitor-system/tests/index.js lines 17-23). -/
structure RegEntry where
  cls : Nat
  enabled : Bool
  order : Int
deriving DecidableEq, Repr

/-- The entry built by one register call. -/
def entryOf (cls : Nat) (opts : RegisterOptions) : RegEntry :=
  { cls := cls
    enabled := !(opts.enabled == some false)
    order := jsOrDefault opts.order 999 }

/-- TestRegistry.register: pushes the new entry at the end of
this.tests. -/
def register (reg : List RegEntry) (cls : Nat) (opts : RegisterOptions) : List RegEntry :=
  reg ++ [entryOf cls opts]

/-- Stable insertion: x is placed after every already-listed y that the
comparator keeps before x, and before the first y it does not. -/
def insertGen (before : α → α → Bool) (x : α) : List α → List α
  | [] => [x]
  | y :: ys => if before y x then y :: insertGen before x ys else x :: y :: ys

/-- Stable sort by repeated insertion. Used to model
Array.prototype.sort with a consistent comparator, whose result the
ECMAScript specification pins down as the unique sorted stable
permutation of the input. -/
def sortGen (before : α → α → Bool) : List α → List α
  | [] => []
  | x :: xs => insertGen before x (sortGen before xs)

/-- A registry entry paired with its registration index, so that
stability of the sort can be stated. -/
abbrev IdxEntry := Nat × RegEntry

/-- The comparator of getTests, (a, b) => a.order - b.order: y sorts
before the newcomer x exactly when y.order < x.order (ties keep the
earlier-inserted element first, which is the stable behaviour of
Array.prototype.sort). -/
def regBefore (y x : IdxEntry) : Bool := decide (y.2.order < x.2.order)

/-- The enabled entries, each paired with its registration index:
this.tests.filter(t => t.enabled). -/
def enabledIdx (reg : List RegEntry) : List IdxEntry :=
  reg.enum.filter (fun p => p.2.enabled)

/-- The sorted enabled entries: .sort((a, b) => a.order - b.order) on
the filtered copy. -/
def sortOrd (l : List IdxEntry) : List IdxEntry := sortGen regBefore l

/-- A freshly constructed check instance, new t.class(config, logger):
it records which class was instantiated and which config and logger
were passed (both modelled as numeric tokens). -/
structure CheckInstance where
  cls : Nat
  config : Nat
  logger : Nat
deriving DecidableEq, Repr

/-- TestRegistry.getTests, src/monitor-system/tests/index.js lines
26-32: filter the enabled entries, sort by ascending order (stable),
construct one fresh instance per entry with the given config and
logger. The registry list itself is left unchanged (filter copies the
array before the in-place sort). -/
def getTests (reg : List RegEntry) (config logger : Nat) : List CheckInstance :=
  (sortOrd (enabledIdx reg)).map (fun p => { cls := p.2.cls, config := config, logger := logger })

/-! ### Result store (Database class of src/monitor-system/dashboard/server.js) -/

/-- Incident status column: the strings open and resolved. -/
inductive IncidentStatus where
  | opened
  | resolved
deriving DecidableEq, Repr

/-- A row of the incidents table. -/
structure IncidentRow where
  id : Nat
  test_name : String
  start_time : Int
  end_time : Option Int
  status : IncidentStatus
  resolved_by : Option String
  resolution_notes : Option String
deriving DecidableEq, Repr

/-- A row of the test_runs table. -/
structure RunRow where
  id : Nat
  timestamp : Int
  total_tests : Nat
  passed_tests : Nat
  failed_tests : Nat
  success_rate : Rat
  duration_ms : Int
  triggered_by : String
deriving DecidableEq, Repr

/-- A row of the individual_tests table (details, screenshot_path and
error_message carry no claim content and are projected away). -/
structure ItestRow where
  run_id : Nat
  test_name : String
  test_category : String
  status : Status
  critical : Bool
  duration_ms : Int
deriving DecidableEq, Repr

/-- A row of the uptime_stats table. The stored uptime_percentage
column is written 100.0 on first insert and never updated afterwards;
reads recompute the percentage (see getUptimeStats). -/
structure UptimeRow where
  date : Int
  total_checks : Nat
  successful_checks : Nat
  stored_percentage : Rat
deriving DecidableEq, Repr

/-- The in-memory result object handed to Database.saveCompleteRun
(monitor.results): timestamp, the pushed per-check results, the
computed summary, duration and trigger. -/
structure RunData where
  timestamp : Int
  tests : List TestResult
  summary : Summary
  duration : Int
  triggeredBy : String
deriving DecidableEq, Repr

/-- The SQLite database, modelled as pure row lists plus the two
autoincrement counters. -/
structure DB where
  runs : List RunRow
  itests : List ItestRow
  incidents : List IncidentRow
  uptime : List UptimeRow
  nextRunId : Nat
  nextIncidentId : Nat
deriving DecidableEq, Repr

/-- A database with empty tables. -/
def emptyDB : DB := ⟨[], [], [], [], 1, 1⟩

/-- The test_runs row inserted by Database.saveTestRun. -/
def runRowOf (runId : Nat) (rd : RunData) : RunRow :=
  { id := runId
    timestamp := rd.timestamp
    total_tests := rd.summary.total
    passed_tests := rd.summary.passed
    failed_tests := rd.summary.failed
    success_rate := rd.summary.successRate
    duration_ms := rd.duration
    triggered_by := rd.triggeredBy }

/-- The individual_tests row inserted by Database.saveIndividualTest. -/
def itRowOf (runId : Nat) (t : TestResult) : ItestRow :=
  { run_id := runId
    test_name := t.name
    test_category := t.category
    status := t.status
    critical := t.critical
    duration_ms := t.duration }

/-- Database.updateUptimeStats on the uptime_stats rows
(src/monitor-system/dashboard/server.js lines 1346-1365):
INSERT OR IGNORE a (today, 0, 0, 100.0) row, then UPDATE the today row
incrementing total_checks by 1 and successful_checks by 1 or 0. -/
def uptTrans (success : Bool) (today : Int) (rows : List UptimeRow) : List UptimeRow :=
  let rows1 :=
    if rows.any (fun r => r.date == today) then rows
    else rows ++ [{ date := today, total_checks := 0, successful_checks := 0,
                    stored_percentage := 100 }]
  rows1.map (fun r =>
    if r.date == today then
      { r with total_checks := r.total_checks + 1,
               successful_checks := r.successful_checks + (if success then 1 else 0) }
    else r)

/-- Database.updateUptimeStats at the database level. -/
def updateUptimeStats (db : DB) (success : Bool) (today : Int) : DB :=
  { db with uptime := uptTrans success today db.uptime }

/-- The incidents row inserted for one failing critical test:
INSERT INTO incidents (test_name, start_time, status)
VALUES (question marks, status open); end_time, resolved_by and resolution_notes are
left NULL. -/
def incidentRowOf (id : Nat) (name : String) (now : Int) : IncidentRow :=
  { id := id
    test_name := name
    start_time := now
    end_time := none
    status := IncidentStatus.opened
    resolved_by := none
    resolution_notes := none }

/-- Database.createIncident (src/monitor-system/dashboard/server.js
lines 1367-1382): one insert per element of failedTests, in order, no
duplicate check against existing open incidents. -/
def createIncident (db : DB) (failedTests : List TestResult) (now : Int) : DB :=
  failedTests.foldl
    (fun s t =>
      { s with incidents := s.incidents ++ [incidentRowOf s.nextIncidentId t.name now],
               nextIncidentId := s.nextIncidentId + 1 })
    db

/-- The incident rows produced for a list of failing tests starting at
a given autoincrement id (specification of the createIncident loop,
proven equal to it below). -/
def mkIncRows : Nat → Int → List TestResult → List IncidentRow
  | _, _, [] => []
  | i, now, t :: ts => incidentRowOf i t.name now :: mkIncRows (i + 1) now ts

/-- Database.saveCompleteRun (src/monitor-system/dashboard/server.js
lines 1317-1344): insert the run row, insert one individual_tests row
per result, update the daily uptime row with success defined as
summary.passed > 0, then create incidents for every result with
critical set and status different from PASS (only called when that
filter is nonempty). -/
def saveCompleteRun (db : DB) (rd : RunData) (today now : Int) : DB :=
  let runId := db.nextRunId
  let db1 : DB := { db with runs := db.runs ++ [runRowOf runId rd], nextRunId := runId + 1 }
  let db2 : DB := { db1 with itests := db1.itests ++ rd.tests.map (itRowOf runId) }
  let db3 := updateUptimeStats db2 (decide (0 < rd.summary.passed)) today
  let failedCritical := rd.tests.filter (fun t => t.critical && !(t.status == Status.PASS))
  if 0 < failedCritical.length then createIncident db3 failedCritical now else db3

/-- The row update applied by Database.resolveIncident:
UPDATE incidents SET status, end_time, resolved_by, resolution_notes
WHERE id = ? — note there is no status filter in the WHERE clause, so
a row matches by id alone whatever its current status. -/
def resolveRow (incidentId : Nat) (resolvedBy notes : Option String) (now : Int)
    (r : IncidentRow) : IncidentRow :=
  if r.id == incidentId then
    { r with status := IncidentStatus.resolved
             end_time := some now
             resolved_by := some (resolvedBy.getD "System")
             resolution_notes := some (notes.getD "Resolved via dashboard") }
  else r

/-- Database.resolveIncident (src/monitor-system/dashboard/server.js
lines 1423-1450): runs the UPDATE above and resolves to
this.changes > 0, the number of rows matched by id. -/
def resolveIncident (db : DB) (incidentId : Nat) (resolvedBy notes : Option String)
    (now : Int) : Bool × DB :=
  let changes := db.incidents.countP (fun r => r.id == incidentId)
  (decide (0 < changes),
   { db with incidents := db.incidents.map (resolveRow incidentId resolvedBy notes now) })

/-- The uptime percentage recomputed at read time:
ROUND(successful_checks * 100.0 / total_checks, 2). SQLite division by
zero yields NULL and ROUND(NULL) is NULL, modelled by none. -/
def reportedPct (r : UptimeRow) : Option Rat :=
  if r.total_checks == 0 then none
  else some (round2 (((r.successful_checks : Rat) * 100) / (r.total_checks : Rat)))

/-- One row of the getUptimeStats result set. -/
structure UptimeView where
  date : Int
  total_checks : Nat
  successful_checks : Nat
  uptime_percentage : Option Rat
deriving DecidableEq, Repr

/-- Projection of an uptime_stats row into the SELECT result. -/
def viewOf (r : UptimeRow) : UptimeView :=
  ⟨r.date, r.total_checks, r.successful_checks, reportedPct r⟩

/-- Database.getUptimeStats (src/monitor-system/dashboard/server.js
lines 1481-1496): rows with date within the window, percentage
recomputed per row, ordered by date descending. -/
def getUptimeStats (db : DB) (days today : Int) : List UptimeView :=
  sortGen (fun y x => decide (x.date < y.date))
    ((db.uptime.filter (fun r => decide (today - days ≤ r.date))).map viewOf)

/-! ### Progress tracking and the run executor
(src/monitor-system/dashboard/server.js lines 205-341 and 374-412) -/

/-- ProgressEntry status values. -/
inductive PStatus where
  | running
  | completed
  | failed
  | cancelled
deriving DecidableEq, Repr

/-- The observable fields of an in-memory ProgressEntry stored in the
activeTests map. -/
structure Progress where
  status : PStatus
  progress : Int
  currentTest : Option String
  results : Option Summary
  endTime : Option Int
  cancelledBy : Option String
deriving DecidableEq, Repr

/-- The progress percentage set by the loop body,
Math.round((completedTests / totalTests) * 100). For
completed ≤ total this equals floor(100·completed/total + 1/2)
= (200·completed + total) / (2·total) in natural-number division,
which is the executable form used here; the identity with jsRound is
proven below (progressPct_eq_jsRound). With total = 0 the loop body
never runs, so the value 0 of natural division by zero is never
observed. -/
def progressPct (completed total : Nat) : Int :=
  (((200 * completed + total) / (2 * total) : Nat) : Int)

/-- The ProgressEntry created by POST /api/run-manual-test-enhanced:
status running, progress 0, no current test. -/
def initialProgress : Progress :=
  { status := PStatus.running, progress := 0, currentTest := none,
    results := none, endTime := none, cancelledBy := none }

/-- One run of the runEnhancedTests loop over the executed checks,
producing every observable ProgressEntry state in order, together with
the state left when the loop ends. The loop body for check number i
sets currentTest and progress = Math.round(completedTests/totalTests*100)
(one observable state, since the assignments are synchronous), then
awaits the check. The await is the only suspension point, so a pending
POST /api/cancel-test request runs there: when cancel = some i the
cancellation handler fires while check i is in flight, and, if the
entry still has status running, marks it cancelled (one more
observable state). The loop itself never reads status, so it continues
regardless. -/
def loopStates (n : Nat) (cancel : Option Nat) (tCancel : Int) (user : String) :
    Nat → List TestResult → Progress → List Progress × Progress
  | _, [], p => ([], p)
  | i, r :: rest, p =>
    let p1 : Progress :=
      { p with currentTest := some r.name,
               progress := progressPct i n }
    if cancel = some i ∧ p1.status = PStatus.running then
      let p2 : Progress :=
        { p1 with status := PStatus.cancelled, endTime := some tCancel,
                  cancelledBy := some user }
      let rest2 := loopStates n cancel tCancel user (i + 1) rest p2
      (p1 :: p2 :: rest2.1, rest2.2)
    else
      let rest1 := loopStates n cancel tCancel user (i + 1) rest p1
      (p1 :: rest1.1, rest1.2)

/-- The full observable ProgressEntry history of one
runEnhancedTests run: the initial entry, every loop state over the
executed prefix of the checks (short-circuiting on critical failure as
configured), and the completion state, which sets status completed,
progress 100 and the computed summary whatever happened before
(src/monitor-system/dashboard/server.js lines 311-318). The framework
catch branch (status failed) is outside this model because checks
return Results rather than throw. -/
def traceStates (rs : List TestResult) (stopCfg : Bool) (cancel : Option Nat)
    (tCancel tEnd : Int) (user : String) : List Progress :=
  let exec := runTests stopCfg rs
  let body := loopStates rs.length cancel tCancel user 0 exec initialProgress
  let fin : Progress :=
    { body.2 with status := PStatus.completed, progress := 100,
                  results := some (computeSummary exec), endTime := some tEnd }
  initialProgress :: body.1 ++ [fin]

/-! ### Retention sweeper (src/monitor-system/utils/cleanup.js) -/

/-- What CleanupManager.processFile does to one file. -/
inductive FileAction where
  | deleted
  | kept
deriving DecidableEq, Repr

/-- The retention cutoff: now minus retentionDays (in day units). -/
def cutoffOf (now retentionDays : Int) : Int := now - retentionDays

/-- CleanupManager.processFile (src/monitor-system/utils/cleanup.js
lines 167-195) for a file with the given size and mtime: an empty file
is deleted when deleteEmptyLogs is set; otherwise the file is deleted
exactly when its mtime is strictly older than the cutoff. Result
counters and logging are projected away. -/
def processFile (deleteEmptyLogs : Bool) (cutoff : Int) (size : Nat) (mtime : Int) :
    FileAction :=
  if deleteEmptyLogs && size == 0 then FileAction.deleted
  else if mtime < cutoff then FileAction.deleted
  else FileAction.kept

/-- What CleanupManager.checkOversizedLogs does to one log file. -/
inductive OversizeAction where
  | rotated
  | leftInPlace
deriving DecidableEq, Repr

/-- CleanupManager.checkOversizedLogs (src/monitor-system/utils/cleanup.js
lines 197-225) per file: a log strictly larger than
maxLogSizeMB * 1024 * 1024 bytes is rotated (renamed to a .old suffix
and recreated empty), never deleted; smaller logs are left in place. -/
def checkOversizedLog (maxLogSizeMB : Nat) (size : Nat) : OversizeAction :=
  if maxLogSizeMB * 1024 * 1024 < size then OversizeAction.rotated
  else OversizeAction.leftInPlace

/-! ### Concrete inputs used by counterexamples and witnesses -/

/-- A database holding one already-resolved incident (id 1, end_time
already set to 3). -/
def dbResolvedOne : DB :=
  { emptyDB with
      incidents := [{ id := 1, test_name := "A", start_time := 1, end_time := some 3,
                      status := IncidentStatus.resolved, resolved_by := some "ops",
                      resolution_notes := some "done" }]
      nextIncidentId := 2 }

/-- A failing critical result used by the C5 witness. -/
def tFailCrit : TestResult :=
  { name := "A", category := "g", critical := true, status := Status.FAIL, duration := 1 }

/-- A run whose only test is a failing critical check, used by the C5
witness. -/
def rdOneFail : RunData :=
  { timestamp := 0, tests := [tFailCrit], summary := computeSummary [tFailCrit],
    duration := 1, triggeredBy := "manual" }

/-- A run counted as successful by the uptime aggregate
(summary.passed > 0). -/
def runPassing : RunData :=
  { timestamp := 0
    tests := [{ name := "A", category := "g", critical := false,
                status := Status.PASS, duration := 1 }]
    summary := computeSummary [{ name := "A", category := "g", critical := false,
                                 status := Status.PASS, duration := 1 }]
    duration := 1, triggeredBy := "manual" }

/-- A run counted as unsuccessful by the uptime aggregate
(summary.passed = 0). -/
def runFailing : RunData :=
  { timestamp := 0
    tests := [{ name := "A", category := "g", critical := false,
                status := Status.FAIL, duration := 1 }]
    summary := computeSummary [{ name := "A", category := "g", critical := false,
                                 status := Status.FAIL, duration := 1 }]
    duration := 1, triggeredBy := "manual" }

/-- A registry where class 1 is registered with explicit order 0 and
class 2 with order 10, used by the C10 witness. -/
def regDemo : List RegEntry :=
  register (register [] 1 { enabled := none, order := some 0 })
    2 { enabled := none, order := some 10 }

/-! ## Theorems -/

theorem runTests_length_le (stopCfg : Bool) :
    ∀ rs : List TestResult, (runTests stopCfg rs).length ≤ rs.length := by
  intro rs
  induction rs with
  | nil => simp [runTests]
  | cons r rest ih =>
    by_cases h : (r.critical && r.status == Status.FAIL && stopCfg) = true
    · simp [runTests, h]
    · simp only [runTests, if_neg h, List.length_cons]
      omega

theorem length_eq_three_counts (tests : List TestResult) :
    tests.length
      = (tests.filter (fun t => t.status == Status.PASS)).length
        + (tests.filter (fun t => t.status == Status.FAIL)).length
        + (tests.filter (fun t => t.status == Status.SKIP)).length := by
  induction tests with
  | nil => simp
  | cons t rest ih =>
    cases h : t.status <;>
      simp [List.filter_cons, h, ih] <;> omega

/-- C3: for every list of Results, the computed Summary has
total equal to the length of the list, passed the count of PASS
results, failed the count of FAIL results, total equal to
passed + failed + count of SKIP, and success_rate equal to
round(passed/total*100, 2) when total is positive, else 0. -/
theorem summary_correct (tests : List TestResult) :
    (computeSummary tests).total = tests.length
    ∧ (computeSummary tests).passed
        = (tests.filter (fun t => t.status == Status.PASS)).length
    ∧ (computeSummary tests).failed
        = (tests.filter (fun t => t.status == Status.FAIL)).length
    ∧ (computeSummary tests).total
        = (computeSummary tests).passed + (computeSummary tests).failed
          + (tests.filter (fun t => t.status == Status.SKIP)).length
    ∧ (computeSummary tests).successRate
        = (if 0 < tests.length then
            round2 ((((tests.filter (fun t => t.status == Status.PASS)).length : Rat)
              / (tests.length : Rat)) * 100)
          else 0) := by
  refine ⟨rfl, rfl, rfl, ?_, rfl⟩
  exact length_eq_three_counts tests

theorem createIncident_itests (ts : List TestResult) :
    ∀ (db : DB) (now : Int), (createIncident db ts now).itests = db.itests := by
  induction ts with
  | nil => intro db now; rfl
  | cons t rest ih =>
    intro db now
    exact ih _ now

theorem createIncident_uptime (ts : List TestResult) :
    ∀ (db : DB) (now : Int), (createIncident db ts now).uptime = db.uptime := by
  induction ts with
  | nil => intro db now; rfl
  | cons t rest ih =>
    intro db now
    exact ih _ now

theorem createIncident_incidents (ts : List TestResult) :
    ∀ (db : DB) (now : Int),
      (createIncident db ts now).incidents
        = db.incidents ++ mkIncRows db.nextIncidentId now ts := by
  induction ts with
  | nil => intro db now; simp [createIncident, mkIncRows]
  | cons t rest ih =>
    intro db now
    have step :
        createIncident db (t :: rest) now
          = createIncident
              { db with incidents := db.incidents ++ [incidentRowOf db.nextIncidentId t.name now],
                        nextIncidentId := db.nextIncidentId + 1 } rest now := rfl
    rw [step, ih]
    simp [mkIncRows]

theorem saveCompleteRun_itests (db : DB) (rd : RunData) (today now : Int) :
    (saveCompleteRun db rd today now).itests
      = db.itests ++ rd.tests.map (itRowOf db.nextRunId) := by
  simp only [saveCompleteRun, updateUptimeStats]
  split
  · rw [createIncident_itests]
  · rfl

theorem saveCompleteRun_uptime (db : DB) (rd : RunData) (today now : Int) :
    (saveCompleteRun db rd today now).uptime
      = uptTrans (decide (0 < rd.summary.passed)) today db.uptime := by
  simp only [saveCompleteRun, updateUptimeStats]
  split
  · rw [createIncident_uptime]
  · rfl

theorem mkIncRows_length :
    ∀ (i : Nat) (now : Int) (ts : List TestResult), (mkIncRows i now ts).length = ts.length := by
  intro i now ts
  induction ts generalizing i with
  | nil => rfl
  | cons t rest ih => simp [mkIncRows, ih]

theorem mkIncRows_shape :
    ∀ (i : Nat) (now : Int) (ts : List TestResult), ∀ row ∈ mkIncRows i now ts,
      row.status = IncidentStatus.opened ∧ row.end_time = none := by
  intro i now ts
  induction ts generalizing i with
  | nil => simp [mkIncRows]
  | cons t rest ih =>
    intro row hrow
    rcases List.mem_cons.mp hrow with h | h
    · subst h; exact ⟨rfl, rfl⟩
    · exact ih _ row h

theorem mkIncRows_names :
    ∀ (i : Nat) (now : Int) (ts : List TestResult),
      (mkIncRows i now ts).map (fun row => row.test_name) = ts.map (fun t => t.name) := by
  intro i now ts
  induction ts generalizing i with
  | nil => rfl
  | cons t rest ih => simp [mkIncRows, incidentRowOf, ih]

/-- C5: saveCompleteRun appends to the incidents table exactly one new
row per Result with critical set and status different from PASS —
whatever incidents (open or not, same name or not) already exist — and
appends nothing when the run has no such Result; every appended row is
open with NULL end_time, and the appended rows carry the failing
names of the failing checks in order. In particular a single run where one critical
check fails yields exactly one open incident for it. -/
theorem incident_per_critical_failure (db : DB) (rd : RunData) (today now : Int) :
    (saveCompleteRun db rd today now).incidents
      = db.incidents
        ++ mkIncRows db.nextIncidentId now
            (rd.tests.filter (fun t => t.critical && !(t.status == Status.PASS)))
    ∧ (∀ (i : Nat) (n2 : Int) (ts : List TestResult),
        (mkIncRows i n2 ts).length = ts.length)
    ∧ (∀ (i : Nat) (n2 : Int) (ts : List TestResult), ∀ row ∈ mkIncRows i n2 ts,
        row.status = IncidentStatus.opened ∧ row.end_time = none)
    ∧ (∀ (i : Nat) (n2 : Int) (ts : List TestResult),
        (mkIncRows i n2 ts).map (fun row => row.test_name) = ts.map (fun t => t.name)) := by
  refine ⟨?_, mkIncRows_length, mkIncRows_shape, mkIncRows_names⟩
  simp only [saveCompleteRun, updateUptimeStats]
  split
  · rw [createIncident_incidents]
  · rename_i h
    have hlen : (rd.tests.filter (fun t => t.critical && !(t.status == Status.PASS))).length = 0 := by
      omega
    rw [List.length_eq_zero] at hlen
    rw [hlen]
    simp [mkIncRows]

/-- C5 witness: a fresh database and a run whose single test is a
failing critical check produce exactly one incident row, and that row
is open with NULL end_time. -/
theorem incident_per_critical_failure_witness :
    (saveCompleteRun emptyDB rdOneFail 0 0).incidents = [incidentRowOf 1 "A" 0]
    ∧ (incidentRowOf 1 "A" 0).status = IncidentStatus.opened
    ∧ (incidentRowOf 1 "A" 0).end_time = none := by
  have h := incident_per_critical_failure emptyDB rdOneFail 0 0
  refine ⟨?_, ?_, ?_⟩
  · rw [h.1]; decide
  · exact (h.2.2.1 1 0 [tFailCrit] (incidentRowOf 1 "A" 0) (by decide)).1
  · exact (h.2.2.1 1 0 [tFailCrit] (incidentRowOf 1 "A" 0) (by decide)).2

/-- C2 counterexample: resolving the already-resolved incident id 1
(end_time already 3) returns true — not false — and does set end_time
again (to the new resolve time 5), refuting both the no-op and the
boolean clause of the claim. -/
theorem resolveIncident_counterexample :
    (resolveIncident dbResolvedOne 1 none none 5).1 = true
    ∧ ((resolveIncident dbResolvedOne 1 none none 5).2.incidents.map (fun r => r.end_time))
        = [some 5]
    ∧ (dbResolvedOne.incidents.map (fun r => r.end_time)) = [some 3] := by
  decide

/-- C2 (amended): resolveIncident returns true iff an incident row
with the given id exists, whatever its status (the UPDATE filters by
id only); the resulting table rewrites every row matching the id with
status resolved, fresh end_time, resolver and notes, and leaves every
other row unchanged. The operation is total (never throws). -/
theorem resolveIncident_by_id (db : DB) (incidentId : Nat)
    (resolvedBy notes : Option String) (now : Int) :
    ((resolveIncident db incidentId resolvedBy notes now).1 = true
      ↔ ∃ r ∈ db.incidents, r.id = incidentId)
    ∧ (resolveIncident db incidentId resolvedBy notes now).2.incidents
        = db.incidents.map (resolveRow incidentId resolvedBy notes now)
    ∧ ∀ r ∈ db.incidents, r.id ≠ incidentId →
        resolveRow incidentId resolvedBy notes now r = r := by
  refine ⟨?_, rfl, ?_⟩
  · simp [resolveIncident, List.countP_pos_iff]
  · intro r _ hne
    simp [resolveRow, hne]

/-- C2 witness: on the concrete one-row database the amended theorem
applies; the row with id 1 exists, so the call returns true. -/
theorem resolveIncident_by_id_witness :
    (resolveIncident dbResolvedOne 1 none none 5).1 = true := by
  have h := (resolveIncident_by_id dbResolvedOne 1 none none 5).1
  exact h.mpr ⟨dbResolvedOne.incidents.head (by decide), by decide, by decide⟩

/-- C4: with stopOnCriticalFailure configured, if the check at
position k is the first to return a critical FAIL Result, the executed
results are exactly the first k+1 results — the Result of the failing check itself
appears, nothing after it is executed — and the persisted
individual_tests rows of the run are exactly those k+1 results. -/
theorem critical_failure_stops_run (rs : List TestResult) (k : Nat) (hk : k < rs.length)
    (hcrit : rs[k].critical = true) (hfail : rs[k].status = Status.FAIL)
    (hfirst : ∀ (j : Nat) (hj : j < k),
      ¬(rs[j].critical = true ∧ rs[j].status = Status.FAIL)) :
    runTests true rs = rs.take (k + 1)
    ∧ ∀ (db : DB) (rd : RunData) (today now : Int), rd.tests = runTests true rs →
        (saveCompleteRun db rd today now).itests
          = db.itests ++ (rs.take (k + 1)).map (itRowOf db.nextRunId) := by
  have main : runTests true rs = rs.take (k + 1) := by
    induction rs generalizing k with
    | nil => exact absurd hk (by simp)
    | cons r rest ih =>
      cases k with
      | zero =>
        have hc : r.critical = true := by simpa using hcrit
        have hf : r.status = Status.FAIL := by simpa using hfail
        simp [runTests, hc, hf]
      | succ k2 =>
        have hr : ¬(r.critical = true ∧ r.status = Status.FAIL) := by
          have h0 := hfirst 0 (Nat.succ_pos k2)
          simpa using h0
        have hcond : (r.critical && r.status == Status.FAIL && true) = false := by
          cases hcr : r.critical <;> cases hst : r.status <;> simp_all
        have hk2 : k2 < rest.length := by
          have := hk
          simp only [List.length_cons] at this
          omega
        have hcrit2 : rest[k2].critical = true := by
          simpa using hcrit
        have hfail2 : rest[k2].status = Status.FAIL := by
          simpa using hfail
        have hfirst2 : ∀ (j : Nat) (hj : j < k2),
            ¬(rest[j].critical = true ∧ rest[j].status = Status.FAIL) := by
          intro j hj
          have := hfirst (j + 1) (by omega)
          simpa using this
        have ih2 := ih k2 hk2 hcrit2 hfail2 hfirst2
        simp only [runTests, hcond, if_neg Bool.false_ne_true, List.take_succ_cons]
        rw [ih2]
  refine ⟨main, ?_⟩
  intro db rd today now hrd
  rw [saveCompleteRun_itests, hrd, main]

/-- C4 witness: a critical failing first check followed by a second
check short-circuits the run to just the first result. -/
theorem critical_failure_stops_run_witness :
    runTests true
        [{ name := "A", category := "g", critical := true, status := Status.FAIL, duration := 1 },
         { name := "B", category := "g", critical := false, status := Status.PASS, duration := 1 }]
      = [{ name := "A", category := "g", critical := true, status := Status.FAIL, duration := 1 }] := by
  have h := critical_failure_stops_run
    [{ name := "A", category := "g", critical := true, status := Status.FAIL, duration := 1 },
     { name := "B", category := "g", critical := false, status := Status.PASS, duration := 1 }]
    0 (by decide) (by decide) (by decide)
    (fun j hj => absurd hj (Nat.not_lt_zero j))
  simpa using h.1

/-- C8: in a retention sweep, a file strictly older than the cutoff is
deleted; a file at or after the cutoff is untouched unless it falls
under the empty-file rule; an empty file is deleted regardless of age
when deleteEmptyLogs is set (the override stated by the claim itself for the previous
clause); and an oversized log is rotated, not deleted. -/
theorem retention_sweep_spec (deleteEmptyLogs : Bool) (cutoff : Int) (size : Nat)
    (mtime : Int) (maxLogSizeMB : Nat) :
    (mtime < cutoff → processFile deleteEmptyLogs cutoff size mtime = FileAction.deleted)
    ∧ (cutoff ≤ mtime → ¬(deleteEmptyLogs = true ∧ size = 0) →
        processFile deleteEmptyLogs cutoff size mtime = FileAction.kept)
    ∧ (deleteEmptyLogs = true → size = 0 →
        processFile deleteEmptyLogs cutoff size mtime = FileAction.deleted)
    ∧ (maxLogSizeMB * 1024 * 1024 < size →
        checkOversizedLog maxLogSizeMB size = OversizeAction.rotated) := by
  refine ⟨?_, ?_, ?_, ?_⟩
  · intro hold
    by_cases hempty : (deleteEmptyLogs && size == 0) = true
    · simp [processFile, hempty]
    · simp [processFile, hempty, hold]
  · intro hfresh hnot
    have hempty : (deleteEmptyLogs && size == 0) = false := by
      cases hd : deleteEmptyLogs <;> simp_all
    simp [processFile, hempty, not_lt.mpr hfresh]
  · intro hd hs
    simp [processFile, hd, hs]
  · intro hbig
    simp [checkOversizedLog, hbig]

/-- C8 witness: the three per-file clauses and the rotation clause
each hold at concrete inputs (old file deleted, fresh nonempty file
kept, fresh empty file deleted under deleteEmptyLogs, 2 MB log rotated
under a 1 MB cap). -/
theorem retention_sweep_spec_witness :
    processFile true 0 5 (-1) = FileAction.deleted
    ∧ processFile true 0 5 0 = FileAction.kept
    ∧ processFile true 0 0 100 = FileAction.deleted
    ∧ checkOversizedLog 1 2097153 = OversizeAction.rotated := by
  refine ⟨?_, ?_, ?_, ?_⟩
  · exact (retention_sweep_spec true 0 5 (-1) 1).1 (by decide)
  · exact (retention_sweep_spec true 0 5 0 1).2.1 (by decide) (by decide)
  · exact (retention_sweep_spec true 0 0 100 1).2.2.1 rfl rfl
  · exact (retention_sweep_spec true 0 2097153 100 1).2.2.2 (by decide)

theorem insertGen_perm (before : α → α → Bool) (x : α) :
    ∀ l : List α, List.Perm (insertGen before x l) (x :: l) := by
  intro l
  induction l with
  | nil => rfl
  | cons y ys ih =>
    by_cases hb : before y x = true
    · have hstep : insertGen before x (y :: ys) = y :: insertGen before x ys := by
        simp [insertGen, hb]
      rw [hstep]
      exact (ih.cons y).trans (List.Perm.swap x y ys)
    · have hstep : insertGen before x (y :: ys) = x :: y :: ys := by
        simp [insertGen, hb]
      rw [hstep]

theorem sortGen_perm (before : α → α → Bool) :
    ∀ l : List α, List.Perm (sortGen before l) l := by
  intro l
  induction l with
  | nil => rfl
  | cons x xs ih =>
    exact (insertGen_perm before x (sortGen before xs)).trans (ih.cons x)

theorem mem_insertGen {before : α → α → Bool} {x a : α} {l : List α} :
    a ∈ insertGen before x l ↔ a = x ∨ a ∈ l := by
  have h := (insertGen_perm before x l).mem_iff (a := a)
  simpa using h

theorem enumFrom_pairwise_fst (l : List α) :
    ∀ n : Nat, (l.enumFrom n).Pairwise (fun a b => a.1 < b.1) := by
  induction l with
  | nil => intro n; simp
  | cons x xs ih =>
    intro n
    simp only [List.enumFrom_cons, List.pairwise_cons]
    constructor
    · intro b hb
      obtain ⟨i, a⟩ := b
      have hle := (List.mk_mem_enumFrom_iff_le_and_getElem?_sub.mp hb).1
      simpa using Nat.lt_of_succ_le hle
    · exact ih (n + 1)

theorem enabledIdx_pairwise_fst (reg : List RegEntry) :
    (enabledIdx reg).Pairwise (fun a b : IdxEntry => a.1 < b.1) := by
  have h : (reg.enum).Pairwise (fun a b : IdxEntry => a.1 < b.1) :=
    enumFrom_pairwise_fst reg 0
  exact h.sublist (List.filter_sublist _)

theorem pairwise_lex_insertGen (x : IdxEntry) :
    ∀ l : List IdxEntry,
      l.Pairwise (fun a b : IdxEntry =>
        a.2.order < b.2.order ∨ (a.2.order = b.2.order ∧ a.1 < b.1)) →
      (∀ y ∈ l, x.2.order = y.2.order → x.1 < y.1) →
      (insertGen regBefore x l).Pairwise (fun a b : IdxEntry =>
        a.2.order < b.2.order ∨ (a.2.order = b.2.order ∧ a.1 < b.1)) := by
  intro l
  induction l with
  | nil =>
    intro _ _
    simp [insertGen]
  | cons y ys ih =>
    intro hp hidx
    rw [List.pairwise_cons] at hp
    by_cases hb : regBefore y x = true
    · have hstep : insertGen regBefore x (y :: ys) = y :: insertGen regBefore x ys := by
        simp [insertGen, hb]
      rw [hstep, List.pairwise_cons]
      constructor
      · intro z hz
        rcases mem_insertGen.mp hz with rfl | hz2
        · exact Or.inl (of_decide_eq_true hb)
        · exact hp.1 z hz2
      · exact ih hp.2 (fun y2 hy2 heq => hidx y2 (List.mem_cons_of_mem _ hy2) heq)
    · have hstep : insertGen regBefore x (y :: ys) = x :: y :: ys := by
        simp [insertGen, hb]
      rw [hstep, List.pairwise_cons]
      have hxy : x.2.order ≤ y.2.order := by
        simpa [regBefore] using hb
      constructor
      · intro z hz
        rcases List.mem_cons.mp hz with rfl | hz2
        · rcases lt_or_eq_of_le hxy with h | h
          · exact Or.inl h
          · exact Or.inr ⟨h, hidx z (List.mem_cons_self _ _) h⟩
        · have hyz := hp.1 z hz2
          have hyzle : y.2.order ≤ z.2.order := by
            rcases hyz with h | h
            · exact le_of_lt h
            · exact le_of_eq h.1
          have hxz : x.2.order ≤ z.2.order := le_trans hxy hyzle
          rcases lt_or_eq_of_le hxz with h | h
          · exact Or.inl h
          · exact Or.inr ⟨h, hidx z (List.mem_cons_of_mem _ hz2) h⟩
      · rw [List.pairwise_cons]
        exact hp

theorem pairwise_lex_sortOrd :
    ∀ l : List IdxEntry, l.Pairwise (fun a b : IdxEntry => a.1 < b.1) →
      (sortOrd l).Pairwise (fun a b : IdxEntry =>
        a.2.order < b.2.order ∨ (a.2.order = b.2.order ∧ a.1 < b.1)) := by
  intro l
  induction l with
  | nil =>
    intro _
    simp [sortOrd, sortGen]
  | cons x xs ih =>
    intro hp
    rw [List.pairwise_cons] at hp
    have step : sortOrd (x :: xs) = insertGen regBefore x (sortOrd xs) := rfl
    rw [step]
    refine pairwise_lex_insertGen x (sortOrd xs) (ih hp.2) ?_
    intro y hy _
    have hyxs : y ∈ xs := (sortGen_perm regBefore xs).mem_iff.mp hy
    exact hp.1 y hyxs

theorem sortOrd_enabled_pairwise_lex (reg : List RegEntry) :
    (sortOrd (enabledIdx reg)).Pairwise (fun a b : IdxEntry =>
      a.2.order < b.2.order ∨ (a.2.order = b.2.order ∧ a.1 < b.1)) :=
  pairwise_lex_sortOrd (enabledIdx reg) (enabledIdx_pairwise_fst reg)

/-- C7: getTests returns exactly the enabled registry entries (a
permutation of the enabled sublist, each tagged with its registration
index), in ascending order of the order field, with ties strictly in
registration sequence, each mapped to a fresh instance carrying the
given config and logger; the registry itself is a pure input and is
not modified. -/
theorem getTests_registry_contract (reg : List RegEntry) (config logger : Nat) :
    List.Perm (sortOrd (enabledIdx reg)) (reg.enum.filter (fun p => p.2.enabled))
    ∧ (sortOrd (enabledIdx reg)).Pairwise
        (fun a b : IdxEntry => a.2.order ≤ b.2.order)
    ∧ (sortOrd (enabledIdx reg)).Pairwise
        (fun a b : IdxEntry => a.2.order = b.2.order → a.1 < b.1)
    ∧ getTests reg config logger
        = (sortOrd (enabledIdx reg)).map
            (fun p => { cls := p.2.cls, config := config, logger := logger }) := by
  have hlex := sortOrd_enabled_pairwise_lex reg
  refine ⟨sortGen_perm _ _, ?_, ?_, rfl⟩
  · refine hlex.imp ?_
    intro a b h
    rcases h with h | h
    · exact le_of_lt h
    · exact le_of_eq h.1
  · refine hlex.imp ?_
    intro a b h heq
    rcases h with h | h
    · exact absurd heq (ne_of_lt h)
    · exact h.2

/-- C7 witness: on the two-entry demo registry (orders 999 and 10) the
contract applies; projecting the sortedness conjunct gives the
concrete ordering of the sorted enabled entries. -/
theorem getTests_registry_contract_witness :
    (sortOrd (enabledIdx regDemo)).Pairwise
      (fun a b : IdxEntry => a.2.order ≤ b.2.order) :=
  (getTests_registry_contract regDemo 7 8).2.1

/-- C10: register stores order 999 when options.order is absent or 0
(the || default treats 0 as falsy), stores any nonzero order verbatim,
and consequently an entry stored with order 999 is sequenced by the
sort after every entry whose order lies in 1..998: its position in the
sorted enabled list is strictly later. -/
theorem order_zero_becomes_999 (reg : List RegEntry) (cls : Nat) (en : Option Bool) :
    (entryOf cls { enabled := en, order := none }).order = 999
    ∧ (entryOf cls { enabled := en, order := some 0 }).order = 999
    ∧ (∀ o : Int, o ≠ 0 → (entryOf cls { enabled := en, order := some o }).order = o)
    ∧ ∀ (k1 k2 : Nat) (h1 : k1 < (sortOrd (enabledIdx reg)).length)
        (h2 : k2 < (sortOrd (enabledIdx reg)).length),
        ((sortOrd (enabledIdx reg)).get ⟨k1, h1⟩).2.order = 999 →
        1 ≤ ((sortOrd (enabledIdx reg)).get ⟨k2, h2⟩).2.order →
        ((sortOrd (enabledIdx reg)).get ⟨k2, h2⟩).2.order ≤ 998 →
        k2 < k1 := by
  refine ⟨rfl, by simp [entryOf, jsOrDefault], ?_, ?_⟩
  · intro o ho
    simp [entryOf, jsOrDefault, ho]
  · intro k1 k2 h1 h2 ho1 ho2lo ho2hi
    have hsorted : (sortOrd (enabledIdx reg)).Pairwise
        (fun a b : IdxEntry => a.2.order ≤ b.2.order) := by
      refine (sortOrd_enabled_pairwise_lex reg).imp ?_
      intro a b h
      rcases h with h | h
      · exact le_of_lt h
      · exact le_of_eq h.1
    have hget := List.pairwise_iff_get.mp hsorted
    rcases Nat.lt_trichotomy k1 k2 with h | h | h
    · have hle := hget ⟨k1, h1⟩ ⟨k2, h2⟩ h
      omega
    · subst h
      omega
    · exact h

/-- C10 witness: in the demo registry, class 1 registered with
explicit order 0 is stored with order 999 and ends up at position 1 of
the sorted list, strictly after the order-10 entry at position 0. -/
theorem order_zero_becomes_999_witness :
    (entryOf 1 { enabled := none, order := some 0 }).order = 999 ∧ (0 : Nat) < 1 := by
  have h := order_zero_becomes_999 regDemo 1 none
  exact ⟨h.2.1, h.2.2.2 1 0 (by decide) (by decide) (by decide) (by decide) (by decide)⟩

theorem jsRound_nonneg (q : Rat) (h : 0 ≤ q) : 0 ≤ jsRound q := by
  rw [jsRound]
  exact Rat.le_floor.mpr (by push_cast; linarith)

theorem jsRound_le_100 (q : Rat) (h : q ≤ 100) : jsRound q ≤ 100 := by
  have h2 : ¬(101 ≤ jsRound q) := by
    intro hc
    rw [jsRound] at hc
    have h3 := Rat.le_floor.mp hc
    push_cast at h3
    linarith
  omega

theorem progressPct_eq_jsRound (i n : Nat) (hn : 0 < n) :
    progressPct i n = jsRound ((100 * (i : Rat)) / (n : Rat)) := by
  have hnq : ((n : Rat)) ≠ 0 := by
    exact_mod_cast Nat.pos_iff_ne_zero.mp hn
  have h1 : (100 * (i : Rat)) / (n : Rat) + 1/2
      = ((200 * i + n : Nat) : Rat) / ((2 * n : Nat) : Rat) := by
    push_cast
    field_simp
    ring
  rw [jsRound, h1]
  have h2 : Rat.floor (((200 * i + n : Nat) : Rat) / ((2 * n : Nat) : Rat))
      = ⌊(((200 * i + n : Nat) : Rat) / ((2 * n : Nat) : Rat))⌋ := rfl
  rw [h2, Rat.floor_natCast_div_natCast]
  rfl

theorem progressPct_nonneg (i n : Nat) : 0 ≤ progressPct i n :=
  Int.natCast_nonneg _

theorem progressPct_le_100 (i n : Nat) (h : i ≤ n) : progressPct i n ≤ 100 := by
  rcases Nat.eq_zero_or_pos n with hn | hn
  · subst hn
    have hi : i = 0 := Nat.le_zero.mp h
    subst hi
    simp [progressPct]
  · have hdiv : (200 * i + n) / (2 * n) < 101 := by
      rw [Nat.div_lt_iff_lt_mul (by omega : 0 < 2 * n)]
      omega
    have : ((200 * i + n) / (2 * n) : Nat) ≤ 100 := by omega
    simp only [progressPct]
    exact_mod_cast this

theorem loopStates_inv (n : Nat) (cancel : Option Nat) (tc : Int) (user : String) :
    ∀ (rest : List TestResult) (i : Nat) (p : Progress),
      p.status ≠ PStatus.completed → 0 ≤ p.progress → p.progress ≤ 100 →
      i + rest.length ≤ n →
      ((∀ q ∈ (loopStates n cancel tc user i rest p).1,
          q.status ≠ PStatus.completed ∧ 0 ≤ q.progress ∧ q.progress ≤ 100)
        ∧ (loopStates n cancel tc user i rest p).2.status ≠ PStatus.completed
        ∧ 0 ≤ (loopStates n cancel tc user i rest p).2.progress
        ∧ (loopStates n cancel tc user i rest p).2.progress ≤ 100) := by
  intro rest
  induction rest with
  | nil =>
    intro i p hs h0 h1 _
    exact ⟨by simp [loopStates], hs, h0, h1⟩
  | cons r rest2 ih =>
    intro i p hs h0 h1 hlen
    have hin : i ≤ n := by
      simp only [List.length_cons] at hlen
      omega
    have hp1lo : 0 ≤ progressPct i n := progressPct_nonneg i n
    have hp1hi : progressPct i n ≤ 100 := progressPct_le_100 i n hin
    have hlen2 : (i + 1) + rest2.length ≤ n := by
      simp only [List.length_cons] at hlen
      omega
    simp only [loopStates]
    split
    · -- cancellation fires during this check
      rename_i hcond
      have ih2 := ih (i + 1)
        { p with currentTest := some r.name,
                 progress := progressPct i n,
                 status := PStatus.cancelled, endTime := some tc, cancelledBy := some user }
        (by simp) hp1lo hp1hi hlen2
      refine ⟨?_, ih2.2.1, ih2.2.2.1, ih2.2.2.2⟩
      intro q hq
      rcases List.mem_cons.mp hq with rfl | hq2
      · exact ⟨hs, hp1lo, hp1hi⟩
      rcases List.mem_cons.mp hq2 with rfl | hq3
      · exact ⟨by simp, hp1lo, hp1hi⟩
      · exact ih2.1 q hq3
    · -- no cancellation at this check
      have ih1 := ih (i + 1)
        { p with currentTest := some r.name,
                 progress := progressPct i n }
        (by simpa using hs) hp1lo hp1hi hlen2
      refine ⟨?_, ih1.2.1, ih1.2.2.1, ih1.2.2.2⟩
      intro q hq
      rcases List.mem_cons.mp hq with rfl | hq2
      · exact ⟨by simpa using hs, hp1lo, hp1hi⟩
      · exact ih1.1 q hq2

/-- C9 (amended): at every observable point in the ProgressEntry
history of a run the progress lies within 0..100, and a completed entry always
shows progress 100. (The converse of the last clause is false in the
code: progress can round up to 100 while the run is still running, see
the counterexample.) -/
theorem progress_bounds (rs : List TestResult) (stopCfg : Bool) (cancel : Option Nat)
    (tCancel tEnd : Int) (user : String) (p : Progress)
    (hp : p ∈ traceStates rs stopCfg cancel tCancel tEnd user) :
    0 ≤ p.progress ∧ p.progress ≤ 100
    ∧ (p.status = PStatus.completed → p.progress = 100) := by
  have hexec : (runTests stopCfg rs).length ≤ rs.length := runTests_length_le stopCfg rs
  have hinv := loopStates_inv rs.length cancel tCancel user (runTests stopCfg rs) 0
    initialProgress (by simp [initialProgress]) (by simp [initialProgress])
    (by simp [initialProgress]) (by omega)
  simp only [traceStates] at hp
  rcases List.mem_cons.mp hp with rfl | hp2
  · refine ⟨by simp [initialProgress], by simp [initialProgress], ?_⟩
    intro hc
    simp [initialProgress] at hc
  rcases List.mem_append.mp hp2 with hbody | hfin
  · have h := hinv.1 p hbody
    exact ⟨h.2.1, h.2.2, fun hc => absurd hc h.1⟩
  · have hpfin := List.mem_singleton.mp hfin
    subst hpfin
    exact ⟨by norm_num, by norm_num, fun _ => rfl⟩

/-- C9 witness: the amended theorem applied to the initial entry of a
one-check run. -/
theorem progress_bounds_witness :
    0 ≤ initialProgress.progress ∧ initialProgress.progress ≤ 100
    ∧ (initialProgress.status = PStatus.completed → initialProgress.progress = 100) :=
  progress_bounds
    [{ name := "T", category := "g", critical := false, status := Status.PASS, duration := 1 }]
    false none 0 0 "u" initialProgress (by decide)

set_option maxRecDepth 10000 in
/-- C9 counterexample: in a 200-check run the entry observed at the
start of check number 200 has status running and progress
Math.round(199/200*100) = Math.round(99.5) = 100, so progress = 100
does not imply status completed. -/
theorem progress_100_while_running :
    ((traceStates
        (List.replicate 200
          { name := "T", category := "g", critical := false,
            status := Status.PASS, duration := 1 })
        false none 0 0 "u").any
      (fun p => p.status == PStatus.running && p.progress == 100)) = true := by
  decide

/-- C1: concrete two-check run in which the cancellation request
succeeds while check A is in flight (the entry is marked cancelled,
third state). The executor loop never consults the cancelled flag:
check B is still scheduled and currentTest is updated again (fourth
state), and the completion block then overwrites the final status to
completed with progress 100 (last state) — the final status of the entry is
not cancelled, refuting the claim; the in-code comment of the cancel
handler acknowledges the test is not actually stopped. -/
theorem cancel_not_honored :
    ((traceStates
        [{ name := "A", category := "g", critical := false, status := Status.PASS, duration := 1 },
         { name := "B", category := "g", critical := false, status := Status.PASS, duration := 1 }]
        true (some 0) 10 20 "alice").map
      (fun p => (p.status, p.progress, p.currentTest)))
    = [(PStatus.running, 0, none),
       (PStatus.running, 0, some "A"),
       (PStatus.cancelled, 0, some "A"),
       (PStatus.cancelled, 50, some "B"),
       (PStatus.completed, 100, some "B")] := by
  decide

theorem uptMap_id (d : Int) (g : UptimeRow → UptimeRow) :
    ∀ l : List UptimeRow, (∀ r ∈ l, r.date ≠ d) →
      (l.map (fun r => if r.date == d then g r else r)) = l := by
  intro l
  induction l with
  | nil => intro _; rfl
  | cons a as ih =>
    intro h
    have ha : (a.date == d) = false := by
      simpa using h a (List.mem_cons_self a as)
    simp only [List.map_cons, ha, Bool.false_eq_true, if_false]
    rw [ih (fun r hr => h r (List.mem_cons_of_mem a hr))]

theorem uptTrans_fresh (rows : List UptimeRow) (s : Bool) (d : Int)
    (h : ∀ r ∈ rows, r.date ≠ d) :
    uptTrans s d rows
      = rows ++ [{ date := d, total_checks := 1,
                   successful_checks := if s then 1 else 0,
                   stored_percentage := 100 }] := by
  have hany : rows.any (fun r => r.date == d) = false := by
    rw [List.any_eq_false]
    intro r hr
    simpa using h r hr
  simp only [uptTrans, hany, Bool.false_eq_true, if_false, List.map_append]
  rw [uptMap_id d _ rows h]
  simp

theorem uptTrans_existing (l1 l2 : List UptimeRow) (row : UptimeRow) (s : Bool) (d : Int)
    (hrow : row.date = d) (h1 : ∀ r ∈ l1, r.date ≠ d) (h2 : ∀ r ∈ l2, r.date ≠ d) :
    uptTrans s d (l1 ++ row :: l2)
      = l1 ++ { row with total_checks := row.total_checks + 1,
                         successful_checks := row.successful_checks
                           + if s then 1 else 0 } :: l2 := by
  have hany : (l1 ++ row :: l2).any (fun r => r.date == d) = true := by
    refine List.any_eq_true.mpr ⟨row, by simp, by simp [hrow]⟩
  simp only [uptTrans, hany, if_true, List.map_append, List.map_cons]
  rw [uptMap_id d _ l1 h1, uptMap_id d _ l2 h2]
  have hcond : (row.date == d) = true := by simp [hrow]
  simp [hcond]

theorem fold_uptime_shape (d now : Int) :
    ∀ (runs : List RunData) (db : DB) (l1 l2 : List UptimeRow) (k m : Nat) (pct : Rat),
      db.uptime = l1 ++ ({ date := d, total_checks := k, successful_checks := m,
                           stored_percentage := pct } : UptimeRow) :: l2 →
      (∀ r ∈ l1, r.date ≠ d) → (∀ r ∈ l2, r.date ≠ d) →
      (runs.foldl (fun s r => saveCompleteRun s r d now) db).uptime
        = l1 ++ ({ date := d,
                   total_checks := k + runs.length,
                   successful_checks :=
                     m + (runs.filter (fun r => decide (0 < r.summary.passed))).length,
                   stored_percentage := pct } : UptimeRow) :: l2 := by
  intro runs
  induction runs with
  | nil =>
    intro db l1 l2 k m pct hdb h1 h2
    simpa using hdb
  | cons r rest ih =>
    intro db l1 l2 k m pct hdb h1 h2
    rw [List.foldl_cons]
    have hstep : (saveCompleteRun db r d now).uptime
        = l1 ++ ({ date := d, total_checks := k + 1,
                   successful_checks := m + if decide (0 < r.summary.passed) then 1 else 0,
                   stored_percentage := pct } : UptimeRow) :: l2 := by
      rw [saveCompleteRun_uptime, hdb]
      exact uptTrans_existing l1 l2 _ _ d rfl h1 h2
    have hrec := ih (saveCompleteRun db r d now) l1 l2 (k + 1)
      (m + if decide (0 < r.summary.passed) then 1 else 0) pct hstep h1 h2
    rw [hrec]
    have hrows : ({ date := d, total_checks := k + 1 + rest.length,
                    successful_checks := (m + if decide (0 < r.summary.passed) then 1 else 0)
                      + (rest.filter (fun x => decide (0 < x.summary.passed))).length,
                    stored_percentage := pct } : UptimeRow)
        = { date := d, total_checks := k + (r :: rest).length,
            successful_checks :=
              m + ((r :: rest).filter (fun x => decide (0 < x.summary.passed))).length,
            stored_percentage := pct } := by
      simp only [UptimeRow.mk.injEq, List.length_cons, List.filter_cons, eq_self_iff_true,
        true_and, and_true]
      refine ⟨by omega, ?_⟩
      by_cases hpass : decide (0 < r.summary.passed) = true
      · simp [hpass]
        omega
      · simp only [hpass, Bool.false_eq_true, if_false]
        omega
    rw [hrows]

theorem find?_eq_of_unique (p : α → Bool) :
    ∀ (l : List α) (x : α), x ∈ l → p x = true → (∀ y ∈ l, p y = true → y = x) →
      l.find? p = some x := by
  intro l
  induction l with
  | nil =>
    intro x hx
    cases hx
  | cons a as ih =>
    intro x hx hpx huniq
    by_cases hpa : p a = true
    · have hax : a = x := huniq a (List.mem_cons_self a as) hpa
      rw [List.find?_cons_of_pos _ hpa, hax]
    · rw [List.find?_cons_of_neg _ hpa]
      have hx2 : x ∈ as := by
        rcases List.mem_cons.mp hx with rfl | h
        · exact absurd hpx hpa
        · exact h
      exact ih x hx2 hpx (fun y hy hpy => huniq y (List.mem_cons_of_mem _ hy) hpy)

/-- C6: starting from a database with no uptime row for day d, after
persisting N runs on day d (N > 0), of which M have summary.passed > 0,
the row of that day reads total_checks = N and successful_checks = M (with
M ≤ N), getUptimeStats reports the daily percentage recomputed at read
time as round(M·100/N, 2) provided the day lies in the requested
window, and a row with total_checks = 0 reports a NULL percentage
rather than an error. -/
theorem uptime_daily_aggregate (db0 : DB) (runs : List RunData) (d days today now : Int)
    (h0 : ∀ r ∈ db0.uptime, r.date ≠ d)
    (hne : runs ≠ [])
    (hrange : today - days ≤ d) :
    (getUptimeStats (runs.foldl (fun s r => saveCompleteRun s r d now) db0) days today).find?
        (fun e => e.date == d)
      = some { date := d, total_checks := runs.length,
               successful_checks :=
                 (runs.filter (fun r => decide (0 < r.summary.passed))).length,
               uptime_percentage := some (round2
                 ((((runs.filter (fun r => decide (0 < r.summary.passed))).length : Rat) * 100)
                   / ((runs.length : Rat)))) }
    ∧ (runs.filter (fun r => decide (0 < r.summary.passed))).length ≤ runs.length
    ∧ (∀ r : UptimeRow, r.total_checks = 0 → reportedPct r = none) := by
  refine ⟨?_, List.length_filter_le _ _, ?_⟩
  swap
  · intro r h
    simp [reportedPct, h]
  obtain ⟨r0, rest, rfl⟩ : ∃ r0 rest, runs = r0 :: rest := by
    cases runs with
    | nil => exact absurd rfl hne
    | cons a b => exact ⟨a, b, rfl⟩
  have hstep1 : (saveCompleteRun db0 r0 d now).uptime
      = db0.uptime
        ++ ({ date := d, total_checks := 1,
              successful_checks := if decide (0 < r0.summary.passed) then 1 else 0,
              stored_percentage := 100 } : UptimeRow) :: [] := by
    rw [saveCompleteRun_uptime]
    simpa using uptTrans_fresh db0.uptime (decide (0 < r0.summary.passed)) d h0
  have hfold := fold_uptime_shape d now rest (saveCompleteRun db0 r0 d now) db0.uptime []
    1 (if decide (0 < r0.summary.passed) then 1 else 0) 100 hstep1 h0 (by simp)
  rw [List.foldl_cons]
  set dbF := rest.foldl (fun s r => saveCompleteRun s r d now) (saveCompleteRun db0 r0 d now)
    with hdbF
  -- counts for the final row
  have hN : 1 + rest.length = (r0 :: rest).length := by simp [Nat.add_comm]
  have hM : (if decide (0 < r0.summary.passed) then 1 else 0)
      + (rest.filter (fun x => decide (0 < x.summary.passed))).length
      = ((r0 :: rest).filter (fun x => decide (0 < x.summary.passed))).length := by
    simp only [List.filter_cons]
    by_cases hpass : decide (0 < r0.summary.passed) = true
    · simp [hpass, Nat.add_comm]
    · simp only [hpass, Bool.false_eq_true, if_false]
      omega
  have hupt : dbF.uptime
      = db0.uptime
        ++ ({ date := d, total_checks := (r0 :: rest).length,
              successful_checks :=
                ((r0 :: rest).filter (fun x => decide (0 < x.summary.passed))).length,
              stored_percentage := 100 } : UptimeRow) :: [] := by
    rw [hfold, hN, hM]
  -- the reported view of the final row
  have hNpos : ((r0 :: rest).length == 0) = false := by simp
  set frow : UptimeRow :=
    { date := d, total_checks := (r0 :: rest).length,
      successful_checks :=
        ((r0 :: rest).filter (fun x => decide (0 < x.summary.passed))).length,
      stored_percentage := 100 } with hfrow
  have hview : viewOf frow
      = { date := d, total_checks := (r0 :: rest).length,
          successful_checks :=
            ((r0 :: rest).filter (fun x => decide (0 < x.summary.passed))).length,
          uptime_percentage := some (round2
            (((((r0 :: rest).filter (fun x => decide (0 < x.summary.passed))).length : Rat) * 100)
              / (((r0 :: rest).length : Rat)))) } := by
    simp [viewOf, hfrow, reportedPct, hNpos]
  -- membership of the view of the final row in the query result
  have hinrange : (decide (today - days ≤ frow.date)) = true := by
    simp [hfrow, hrange]
  have hmemfilter : frow ∈ dbF.uptime.filter (fun r => decide (today - days ≤ r.date)) := by
    rw [List.mem_filter]
    exact ⟨by rw [hupt]; simp, hinrange⟩
  have hmemmap : viewOf frow
      ∈ (dbF.uptime.filter (fun r => decide (today - days ≤ r.date))).map viewOf :=
    List.mem_map_of_mem viewOf hmemfilter
  have hmemsort : viewOf frow ∈ getUptimeStats dbF days today := by
    rw [getUptimeStats]
    exact (sortGen_perm _ _).mem_iff.mpr hmemmap
  -- uniqueness of day-d entries in the query result
  have huniq : ∀ y ∈ getUptimeStats dbF days today, (y.date == d) = true → y = viewOf frow := by
    intro y hy hyd
    rw [getUptimeStats] at hy
    have hy2 := (sortGen_perm _ _).mem_iff.mp hy
    rcases List.mem_map.mp hy2 with ⟨r, hrmem, rfl⟩
    have hrmem2 := (List.mem_filter.mp hrmem).1
    rw [hupt] at hrmem2
    rcases List.mem_append.mp hrmem2 with hr0 | hrf
    · have hrd : r.date = d := by simpa [viewOf] using hyd
      exact absurd hrd (h0 r hr0)
    · have : r = frow := by simpa using hrf
      rw [this]
  have hfind := find?_eq_of_unique (fun e => e.date == d)
    (getUptimeStats dbF days today) (viewOf frow) hmemsort (by simp [viewOf, hfrow]) huniq
  rw [hfind, hview]

/-- C6 witness: two same-day runs on a fresh database, one with a
passing check and one without, yield the day row (total 2,
successful 1), and a zero-total row reports NULL. -/
theorem uptime_daily_aggregate_witness :
    (((getUptimeStats
          ([runPassing, runFailing].foldl (fun s r => saveCompleteRun s r 0 0) emptyDB)
          7 0).find? (fun e => e.date == 0)).map
        (fun e => (e.date, e.total_checks, e.successful_checks)))
      = some (0, 2, 1)
    ∧ reportedPct { date := 0, total_checks := 0, successful_checks := 0,
                    stored_percentage := 100 } = none := by
  constructor
  · have h := (uptime_daily_aggregate emptyDB [runPassing, runFailing] 0 7 0 0
      (by simp [emptyDB]) (by simp) (by norm_num)).1
    rw [h]
    decide
  · exact (uptime_daily_aggregate emptyDB [runPassing] 0 7 0 0
      (by simp [emptyDB]) (by simp) (by norm_num)).2.2 _ rfl

end WM
